import Mathlib

/-!
Verification development for the bulk directory-to-S3 uploader with
asynchronous two-tier logging (upload_s3_files_to_bucket.py).

Strings are modelled as lists of characters.  The uploader's interaction
with the filesystem and the object store is modelled by an outcome oracle
`beh` classifying each file exactly as the source's try/except ladder does,
and `os.walk` output is modelled as the list of per-directory file lists it
yields, in order.  Wall-clock readings are an oracle `clock` indexed by the
number of `log_async` calls performed so far.
-/

abbrev Str := List Char

/-- A wall-clock instant as read by datetime.datetime.now(). -/
structure DateTime where
  year : Nat
  month : Nat
  day : Nat
  hour : Nat
  minute : Nat
  second : Nat
  micro : Nat
deriving DecidableEq

/-- Decimal digit character of n % 10 (models one strftime digit). -/
def digitChar (n : Nat) : Char := Char.ofNat (48 + n % 10)

/-- Decimal representation of a natural number, most significant digit first. -/
def natChars (n : Nat) : Str :=
  if n < 10 then [digitChar n]
  else natChars (n / 10) ++ [digitChar n]
termination_by n
decreasing_by
  exact Nat.div_lt_self (by omega) (by omega)

/-- Zero-padded decimal representation, as produced by strftime field
directives such as %Y, %m, %H and %f. -/
def padNat (w n : Nat) : Str := List.replicate (w - (natChars n).length) '0' ++ natChars n

/-- Exactly k decimal digits of n (mod 10^k), most significant first. -/
def digitsFix : Nat → Nat → Str
  | 0, _ => []
  | k + 1, n => digitsFix k (n / 10) ++ [digitChar n]

/-- Removing the final n characters of a string; models the Python
slice s[:-n] on a string of length at least n. -/
def dropRight (n : Nat) (l : Str) : Str := l.take (l.length - n)

/-- strftime("%Y-%m-%d %H:%M:%S,%f") applied to a DateTime. -/
def strfFull (t : DateTime) : Str :=
  padNat 4 t.year ++ '-' :: padNat 2 t.month ++ '-' :: padNat 2 t.day
    ++ ' ' :: padNat 2 t.hour ++ ':' :: padNat 2 t.minute ++ ':' :: padNat 2 t.second
    ++ ',' :: padNat 6 t.micro

/-- The date-and-time prefix up to whole seconds of the formatted timestamp. -/
def strfSec (t : DateTime) : Str :=
  padNat 4 t.year ++ '-' :: padNat 2 t.month ++ '-' :: padNat 2 t.day
    ++ ' ' :: padNat 2 t.hour ++ ':' :: padNat 2 t.minute ++ ':' :: padNat 2 t.second

/-- The asctime field of a log entry:
datetime.datetime.now().strftime("%Y-%m-%d %H:%M:%S,%f")[:-3]. -/
def pyAsctime (t : DateTime) : Str := dropRight 3 (strfFull t)

/-- One log entry dict as built by log_async:
keys asctime, levelname, message. -/
structure LogRecord where
  asctime : Str
  levelname : Str
  message : Str
deriving DecidableEq

/-- log_async(level, msg): builds the log entry dict that is put on the
queue, stamping it with the current wall-clock instant. -/
def log_async (now : DateTime) (level : Str) (msg : Str) : LogRecord :=
  { asctime := pyAsctime now, levelname := level, message := msg }

/-- Observable actions of the uploader thread, in program order:
queue insertions (records or the None sentinel), print calls, and
console-handler emissions made through logger.error. -/
inductive Event
  | put (item : Option LogRecord)
  | print (msg : Str)
  | conlog (msg : Str)
deriving DecidableEq

/-- Classified result of one upload attempt, mirroring the except ladder:
success, FileNotFoundError, NoCredentialsError, or any other exception. -/
inductive UpRes
  | ok
  | notFound
  | noCreds
  | otherErr (detail : Str)
deriving DecidableEq

def uploadMsg (file bucket : Str) : Str :=
  "File ".toList ++ file ++ " uploaded to ".toList ++ bucket

def notFoundMsg (file : Str) : Str :=
  "The file ".toList ++ file ++ " was not found".toList

def credsMsg : Str := "Credentials not available".toList

def otherMsg (file detail : Str) : Str :=
  "Error uploading file ".toList ++ file ++ ": ".toList ++ detail

/-- Result of running (part of) the upload loop: files whose upload was
attempted, events emitted in order, and the next clock index. -/
structure PRes where
  attempted : List Str
  events : List Event
  nextK : Nat
deriving DecidableEq

/-- The inner "for file in files" loop of upload_directory_to_s3, over one
directory's file list.  NoCredentialsError logs and breaks out of this
loop only; the generic except branch goes to logger.error (console) and
does not enqueue a record. -/
def processFiles (beh : Str → UpRes) (clock : Nat → DateTime) (bucket : Str) :
    List Str → Nat → PRes
  | [], k => ⟨[], [], k⟩
  | f :: fs, k =>
    match beh f with
    | UpRes.ok =>
        let r := processFiles beh clock bucket fs (k + 1)
        ⟨f :: r.attempted,
         Event.put (some (log_async (clock k) "INFO".toList (uploadMsg f bucket)))
           :: Event.print (uploadMsg f bucket) :: r.events,
         r.nextK⟩
    | UpRes.notFound =>
        let r := processFiles beh clock bucket fs (k + 1)
        ⟨f :: r.attempted,
         Event.put (some (log_async (clock k) "ERROR".toList (notFoundMsg f))) :: r.events,
         r.nextK⟩
    | UpRes.noCreds =>
        ⟨[f], [Event.put (some (log_async (clock k) "ERROR".toList credsMsg))], k + 1⟩
    | UpRes.otherErr e =>
        let r := processFiles beh clock bucket fs k
        ⟨f :: r.attempted, Event.conlog (otherMsg f e) :: r.events, r.nextK⟩

/-- The outer "for subdir, dirs, files in os.walk(...)" loop: one
processFiles pass per directory yielded by the walk. -/
def processDirs (beh : Str → UpRes) (clock : Nat → DateTime) (bucket : Str) :
    List (List Str) → Nat → PRes
  | [], k => ⟨[], [], k⟩
  | d :: ds, k =>
    let r1 := processFiles beh clock bucket d k
    let r2 := processDirs beh clock bucket ds r1.nextK
    ⟨r1.attempted ++ r2.attempted, r1.events ++ r2.events, r2.nextK⟩

/-- upload_directory_to_s3: walks the tree, drives the uploads, and ends by
putting the None sentinel on the queue (its final action before returning).
Result: attempted files and the emitted events, in order. -/
def upload_directory_to_s3 (beh : Str → UpRes) (clock : Nat → DateTime) (bucket : Str)
    (walk : List (List Str)) : List Str × List Event :=
  let r := processDirs beh clock bucket walk 0
  (r.attempted, r.events ++ [Event.put none])

/-- The records put on the log queue by an event sequence, in order. -/
def enqueuedRecords (evts : List Event) : List LogRecord :=
  evts.filterMap fun e =>
    match e with
    | Event.put (some r) => some r
    | _ => none

/-- The queue insertions (records and sentinels) of an event sequence. -/
def queueItems (evts : List Event) : List (Option LogRecord) :=
  evts.filterMap fun e =>
    match e with
    | Event.put it => some it
    | _ => none

/-- The console output produced by an event sequence, in order. -/
def consoleLines (evts : List Event) : List Str :=
  evts.filterMap fun e =>
    match e with
    | Event.print m => some m
    | Event.conlog m => some m
    | _ => none

/-- The two severity-partitioned sink files, each a list of the chunks
appended by successive write_log calls. -/
structure Sinks where
  info : List Str
  error : List Str
deriving DecidableEq

namespace AsyncLogHandler

/-- AsyncLogHandler.format:
f-string asctime - levelname - message. -/
def format (r : LogRecord) : Str :=
  r.asctime ++ " - ".toList ++ r.levelname ++ " - ".toList ++ r.message

/-- AsyncLogHandler.write_log: routes on levelname == "ERROR" and appends
format(record) plus a newline to the selected sink file (opened in append
mode for this single write). -/
def write_log (r : LogRecord) (s : Sinks) : Sinks :=
  if r.levelname = "ERROR".toList then { s with error := s.error ++ [format r ++ ['\n']] }
  else { s with info := s.info ++ [format r ++ ['\n']] }

/-- AsyncLogHandler.run, applied to the sequence of queue items the worker
dequeues: process records until the None sentinel, then stop. -/
def run : List (Option LogRecord) → Sinks → Sinks
  | [], s => s
  | none :: _, s => s
  | some r :: rest, s => run rest (write_log r s)

/-- How the worker loop ends: sentinel seen, an uncaught write exception,
or the queue script ran out (the real worker would block there). -/
inductive WExit
  | finished
  | crashed
  | starved
deriving DecidableEq

/-- AsyncLogHandler.run with a fallible sink: fail i says whether the i-th
write_log call raises (e.g. open fails).  The source has no try/except
around write_log, so a raised exception leaves run and ends the thread;
the result records the sinks written so far, how the loop ended, and the
queue items left undequeued. -/
def runExc (fail : Nat → Bool) :
    List (Option LogRecord) → Nat → Sinks → Sinks × WExit × List (Option LogRecord)
  | [], _, s => (s, WExit.starved, [])
  | none :: rest, _, s => (s, WExit.finished, rest)
  | some r :: rest, i, s =>
      if fail i then (s, WExit.crashed, rest)
      else runExc fail rest (i + 1) (write_log r s)

end AsyncLogHandler

/-- Queue items contributed by one producer event. -/
def evQueue : Event → List (Option LogRecord)
  | Event.put it => [it]
  | _ => []

/-- Console lines contributed by one producer event. -/
def evConsole : Event → List Str
  | Event.print m => [m]
  | Event.conlog m => [m]
  | _ => []

/-- Joint state of the uploader thread and the daemon worker thread:
the producer's remaining script, the FIFO queue contents, the sinks and
console written so far, and whether the worker has terminated. -/
structure Sys where
  pending : List Event
  queue : List (Option LogRecord)
  sinks : Sinks
  console : List Str
  workerDone : Bool
deriving DecidableEq

/-- Interleaving small-step semantics of the two threads: the producer
performs its next scripted action, or the worker dequeues one item
(writing a record, or terminating on the sentinel). -/
inductive Step : Sys → Sys → Prop
  | prod (e : Event) (rest : List Event) (q : List (Option LogRecord)) (sk : Sinks)
      (co : List Str) (wd : Bool) :
      Step ⟨e :: rest, q, sk, co, wd⟩ ⟨rest, q ++ evQueue e, sk, co ++ evConsole e, wd⟩
  | workWrite (p : List Event) (r : LogRecord) (q : List (Option LogRecord)) (sk : Sinks)
      (co : List Str) :
      Step ⟨p, some r :: q, sk, co, false⟩ ⟨p, q, AsyncLogHandler.write_log r sk, co, false⟩
  | workStop (p : List Event) (q : List (Option LogRecord)) (sk : Sinks) (co : List Str) :
      Step ⟨p, none :: q, sk, co, false⟩ ⟨p, q, sk, co, true⟩

/-- Reflexive-transitive closure of Step: reachable executions. -/
inductive Reach : Sys → Sys → Prop
  | refl (s : Sys) : Reach s s
  | step {a b c : Sys} : Step a b → Reach b c → Reach a c

/-- Bool test that pat is a leading segment of s (Python str.startswith). -/
def startsWith : Str → Str → Bool
  | [], _ => true
  | _ :: _, [] => false
  | p :: ps, c :: cs => p == c && startsWith ps cs

/-- Scanner behind pySplit: leftmost-first search for the separator
s0 :: sr, accumulating the current field in reverse. -/
def pySplitGo (s0 : Char) (sr : Str) : Str → Str → List Str
  | acc, [] => [acc.reverse]
  | acc, c :: rest =>
      if startsWith (s0 :: sr) (c :: rest) then
        acc.reverse :: pySplitGo s0 sr [] (rest.drop sr.length)
      else pySplitGo s0 sr (c :: acc) rest
termination_by _ s => s.length
decreasing_by
  · simp only [List.length_cons, List.length_drop]
    omega
  · simp only [List.length_cons]
    omega

/-- Python str.split(sep) for a non-empty separator. -/
def pySplit (sep s : Str) : List Str :=
  match sep with
  | [] => [s]
  | s0 :: sr => pySplitGo s0 sr [] s

/-- str.join: interleave a separator between fields. -/
def joinSep (sep : Str) : List Str → Str
  | [] => []
  | [x] => x
  | x :: y :: t => x ++ sep ++ joinSep sep (y :: t)

/-- The field separator " - " used by AsyncLogHandler.format. -/
def sep3 : Str := " - ".toList

/-- Parsing a log line back by splitting on " - ". -/
def parseFields (l : Str) : List Str := pySplit sep3 l

/-- Severity recovered from a parsed log line: its second field. -/
def parsedSeverity (l : Str) : Option Str := (parseFields l).get? 1

/-- Message recovered from a parsed log line: all fields from the third
on, rejoined on the separator. -/
def parsedMessage (l : Str) : Str := joinSep sep3 ((parseFields l).drop 2)

/-! ### Digit and padding lemmas -/

theorem natChars_ne_nil (n : Nat) : natChars n ≠ [] := by
  rw [natChars]
  by_cases h : n < 10 <;> simp [h]

theorem mem_natChars (n : Nat) : ∀ c ∈ natChars n, ∃ m, c = digitChar m := by
  induction n using Nat.strong_induction_on with
  | _ n ih =>
    rw [natChars]
    by_cases h : n < 10
    · simp only [if_pos h, List.mem_singleton]
      intro c hc
      exact ⟨n, hc⟩
    · simp only [if_neg h, List.mem_append, List.mem_singleton]
      intro c hc
      rcases hc with hc | hc
      · exact ih (n / 10) (Nat.div_lt_self (by omega) (by omega)) c hc
      · exact ⟨n, hc⟩

theorem digitChar_ne (m : Nat) :
    digitChar m ≠ ' ' ∧ digitChar m ≠ '-' := by
  have h : m % 10 < 10 := Nat.mod_lt _ (by omega)
  unfold digitChar
  generalize m % 10 = r at h
  interval_cases r <;> exact ⟨by decide, by decide⟩

theorem mem_padNat (w n : Nat) : ∀ c ∈ padNat w n, c = '0' ∨ ∃ m, c = digitChar m := by
  intro c hc
  unfold padNat at hc
  rcases List.mem_append.mp hc with hc | hc
  · exact Or.inl (List.eq_of_mem_replicate hc)
  · exact Or.inr (mem_natChars n c hc)

theorem mem_padNat_ne (w n : Nat) : ∀ c ∈ padNat w n, c ≠ ' ' ∧ c ≠ '-' := by
  intro c hc
  rcases mem_padNat w n c hc with h | ⟨m, h⟩
  · subst h
    exact ⟨by decide, by decide⟩
  · subst h
    exact digitChar_ne m

theorem padNat_length_ge (w n : Nat) : w ≤ (padNat w n).length := by
  unfold padNat
  simp only [List.length_append, List.length_replicate]
  omega

theorem length_digitsFix (k n : Nat) : (digitsFix k n).length = k := by
  induction k generalizing n with
  | zero => rfl
  | succ k ih => simp [digitsFix, ih]

theorem digitsFix_zero (k : Nat) : digitsFix k 0 = List.replicate k '0' := by
  induction k with
  | zero => rfl
  | succ k ih =>
    have h0 : digitChar 0 = '0' := by decide
    simp [digitsFix, ih, h0, List.replicate_succ']

theorem digitsFix_add (j k n : Nat) :
    digitsFix (j + k) n = digitsFix j (n / 10 ^ k) ++ digitsFix k n := by
  induction k generalizing n with
  | zero => simp [digitsFix]
  | succ k ih =>
    have hd : n / 10 / 10 ^ k = n / 10 ^ (k + 1) := by
      rw [Nat.div_div_eq_div_mul]
      congr 1
      rw [Nat.pow_succ]
      omega
    calc digitsFix (j + (k + 1)) n
        = digitsFix ((j + k) + 1) n := by rw [Nat.add_succ]
      _ = digitsFix (j + k) (n / 10) ++ [digitChar n] := rfl
      _ = (digitsFix j (n / 10 / 10 ^ k) ++ digitsFix k (n / 10)) ++ [digitChar n] := by
            rw [ih]
      _ = digitsFix j (n / 10 ^ (k + 1)) ++ (digitsFix k (n / 10) ++ [digitChar n]) := by
            rw [hd, List.append_assoc]
      _ = digitsFix j (n / 10 ^ (k + 1)) ++ digitsFix (k + 1) n := rfl

theorem padNat_eq_digitsFix (k n : Nat) (hk : 1 ≤ k) (hn : n < 10 ^ k) :
    padNat k n = digitsFix k n := by
  induction k generalizing n with
  | zero => omega
  | succ k ih =>
    by_cases h : n < 10
    · have hrw : natChars n = [digitChar n] := by rw [natChars, if_pos h]
      have hdiv : n / 10 = 0 := Nat.div_eq_of_lt h
      show List.replicate (k + 1 - (natChars n).length) '0' ++ natChars n = _
      rw [hrw]
      simp only [List.length_singleton, Nat.add_sub_cancel]
      show List.replicate k '0' ++ [digitChar n] = digitsFix k (n / 10) ++ [digitChar n]
      rw [hdiv, digitsFix_zero]
    · have hk1 : 1 ≤ k := by
        by_contra hcon
        have : k = 0 := by omega
        subst this
        norm_num at hn
        omega
      have hdivlt : n / 10 < 10 ^ k := by
        have h10 : (10 : Nat) ^ (k + 1) = 10 ^ k * 10 := by rw [Nat.pow_succ]
        rw [Nat.div_lt_iff_lt_mul (by omega)]
        omega
      have hrw : natChars n = natChars (n / 10) ++ [digitChar n] := by
        rw [natChars, if_neg h]
      show List.replicate (k + 1 - (natChars n).length) '0' ++ natChars n = _
      rw [hrw]
      simp only [List.length_append, List.length_singleton]
      have hlen : k + 1 - ((natChars (n / 10)).length + 1) = k - (natChars (n / 10)).length := by
        omega
      rw [hlen, ← List.append_assoc]
      show padNat k (n / 10) ++ [digitChar n] = digitsFix k (n / 10) ++ [digitChar n]
      rw [ih (n / 10) hk1 hdivlt]

theorem length_dropRight (n : Nat) (l : Str) : (dropRight n l).length = l.length - n := by
  unfold dropRight
  simp only [List.length_take]
  omega

theorem dropRight_append (n : Nat) (l₁ l₂ : Str) (h : n ≤ l₂.length) :
    dropRight n (l₁ ++ l₂) = l₁ ++ dropRight n l₂ := by
  unfold dropRight
  rw [List.length_append]
  have hlen : l₁.length + l₂.length - n = l₁.length + (l₂.length - n) := by omega
  rw [hlen, List.take_append_eq_append_take]
  congr 1
  · exact List.take_of_length_le (by omega)
  · congr 1
    omega

theorem dropRight_subset (n : Nat) (l : Str) : ∀ c ∈ dropRight n l, c ∈ l := by
  intro c hc
  exact List.take_subset _ _ hc

theorem dropRight_of_append_length (l₁ l₂ : Str) (h : l₂.length = 3) :
    dropRight 3 (l₁ ++ l₂) = l₁ := by
  unfold dropRight
  rw [List.length_append, h]
  simp only [Nat.add_sub_cancel]
  exact List.take_left l₁ l₂

theorem msec_truncate (n : Nat) (h : n < 1000000) :
    dropRight 3 (padNat 6 n) = padNat 3 (n / 1000) := by
  have h6 : n < 10 ^ 6 := by norm_num; omega
  have h3 : n / 1000 < 10 ^ 3 := by
    norm_num
    omega
  rw [padNat_eq_digitsFix 6 n (by omega) h6]
  have hsplit : digitsFix 6 n = digitsFix 3 (n / 10 ^ 3) ++ digitsFix 3 n := digitsFix_add 3 3 n
  rw [hsplit]
  rw [dropRight_of_append_length _ _ (length_digitsFix 3 n)]
  have hpow : (10 : Nat) ^ 3 = 1000 := by norm_num
  rw [hpow]
  exact (padNat_eq_digitsFix 3 (n / 1000) (by omega) h3).symm

/-! ### Suffix helpers and Python split lemmas -/

theorem sep3_eq : sep3 = [' ', '-', ' '] := rfl

theorem suffix_subset {y a : Str} (h : y <:+ a) : ∀ x ∈ y, x ∈ a := by
  obtain ⟨p, hp⟩ := h
  intro x hx
  rw [← hp]
  exact List.mem_append_right p hx

theorem suffix_elim {y : Str} {c : Char} {l : Str} (h : y <:+ c :: l) :
    y = c :: l ∨ y <:+ l := by
  obtain ⟨p, hp⟩ := h
  cases p with
  | nil => exact Or.inl hp
  | cons d ds =>
    right
    refine ⟨ds, ?_⟩
    simpa using congrArg List.tail hp

theorem suffix_of_suffix_cons {y a' : Str} {c : Char} (h : y <:+ a') : y <:+ c :: a' := by
  obtain ⟨p, hp⟩ := h
  exact ⟨c :: p, by simp [hp]⟩

theorem suffix_append_elim {y a b : Str} (h : y <:+ a ++ b) :
    y <:+ b ∨ ∃ ya, ya ≠ [] ∧ ya <:+ a ∧ y = ya ++ b := by
  induction a with
  | nil => exact Or.inl (by simpa using h)
  | cons c a' ih =>
    have h' : y <:+ c :: (a' ++ b) := by simpa using h
    rcases suffix_elim h' with heq | hsuf
    · right
      exact ⟨c :: a', by simp, List.suffix_refl _, by simpa using heq⟩
    · rcases ih hsuf with h1 | ⟨ya, hne, hya, hy⟩
      · exact Or.inl h1
      · exact Or.inr ⟨ya, hne, suffix_of_suffix_cons hya, hy⟩

/-- No nonempty suffix of a, when continued by z, begins with the log
field separator: scanning a ++ z for the separator cannot hit inside a or
straddling a's end. -/
def NoHit (z a : Str) : Prop :=
  ∀ y, y <:+ a → y ≠ [] → startsWith sep3 (y ++ z) = false

theorem noHit_of_no_space {a : Str} (h : ∀ c ∈ a, c ≠ ' ') (z : Str) : NoHit z a := by
  intro y hy hne
  cases y with
  | nil => exact absurd rfl hne
  | cons c ys =>
    have hc : c ∈ a := suffix_subset hy c (List.mem_cons_self c ys)
    have hcs : c ≠ ' ' := h c hc
    show startsWith sep3 (c :: (ys ++ z)) = false
    rw [sep3_eq]
    show (' ' == c && startsWith ['-', ' '] (ys ++ z)) = false
    have hb : (' ' == c) = false := by
      rw [beq_eq_false_iff_ne]
      exact fun heq => hcs heq.symm
    rw [hb, Bool.false_and]

theorem noHit_append {a b z : Str} (hb : NoHit z b) (ha : NoHit (b ++ z) a) :
    NoHit z (a ++ b) := by
  intro y hy hne
  rcases suffix_append_elim hy with h1 | ⟨ya, hyane, hya, hyeq⟩
  · exact hb y h1 hne
  · subst hyeq
    have h2 := ha ya hya hyane
    rw [List.append_assoc]
    exact h2

theorem noHit_space_block {B : Str} (hB : ∀ c ∈ B, c ≠ ' ' ∧ c ≠ '-') (hne : B ≠ [])
    (z : Str) : NoHit z (' ' :: B) := by
  intro y hy hyne
  rcases suffix_elim hy with heq | hsuf
  · subst heq
    cases B with
    | nil => exact absurd rfl hne
    | cons b B' =>
      show startsWith sep3 (' ' :: ((b :: B') ++ z)) = false
      rw [sep3_eq]
      show (' ' == ' ' && (('-' == b) && startsWith [' '] (B' ++ z))) = false
      have hb : ('-' == b) = false := by
        rw [beq_eq_false_iff_ne]
        exact fun heq2 => (hB b (List.mem_cons_self b B')).2 heq2.symm
      rw [hb]
      simp
  · cases y with
    | nil => exact absurd rfl hyne
    | cons c ys =>
      have hc : c ∈ B := suffix_subset hsuf c (List.mem_cons_self c ys)
      have hcs := (hB c hc).1
      show startsWith sep3 (c :: (ys ++ z)) = false
      rw [sep3_eq]
      show (' ' == c && startsWith ['-', ' '] (ys ++ z)) = false
      have h2 : (' ' == c) = false := by
        rw [beq_eq_false_iff_ne]
        exact fun heq2 => hcs heq2.symm
      rw [h2, Bool.false_and]

theorem dropRight_cons {n : Nat} {c : Char} {l : Str} (h : n ≤ l.length) :
    dropRight n (c :: l) = c :: dropRight n l := by
  unfold dropRight
  simp only [List.length_cons]
  have heq : l.length + 1 - n = (l.length - n) + 1 := by omega
  rw [heq, List.take_succ_cons]

theorem pyAsctime_decomp (t : DateTime) :
    pyAsctime t = strfSec t ++ ',' :: dropRight 3 (padNat 6 t.micro) := by
  have h1 : strfFull t = strfSec t ++ (',' :: padNat 6 t.micro) := by
    simp [strfFull, strfSec, List.append_assoc]
  have h6 := padNat_length_ge 6 t.micro
  unfold pyAsctime
  rw [h1, dropRight_append 3 _ _ (by simp; omega)]
  rw [dropRight_cons (by omega)]

/-- Millisecond precision: for a real microsecond field (less than 10^6),
the [:-3] slice turns ,micro (6 digits) into ,milli (3 digits, the
microseconds integrally divided by 1000). -/
theorem pyAsctime_msec (t : DateTime) (h : t.micro < 1000000) :
    pyAsctime t = strfSec t ++ ',' :: padNat 3 (t.micro / 1000) := by
  rw [pyAsctime_decomp, msec_truncate _ h]

theorem noHit_pyAsctime (t : DateTime) (z : Str) : NoHit z (pyAsctime t) := by
  have h1 : strfFull t =
      (padNat 4 t.year ++ '-' :: padNat 2 t.month ++ '-' :: padNat 2 t.day)
        ++ (' ' :: (padNat 2 t.hour ++ ':' :: padNat 2 t.minute ++ ':' :: padNat 2 t.second
              ++ ',' :: padNat 6 t.micro)) := by
    simp [strfFull, List.append_assoc]
  have httlen : 9 ≤ (padNat 2 t.hour ++ ':' :: padNat 2 t.minute ++ ':' :: padNat 2 t.second
      ++ ',' :: padNat 6 t.micro).length := by
    have h6 := padNat_length_ge 6 t.micro
    simp [List.length_append]
    omega
  have h2 : pyAsctime t =
      (padNat 4 t.year ++ '-' :: padNat 2 t.month ++ '-' :: padNat 2 t.day)
        ++ ' ' :: dropRight 3 (padNat 2 t.hour ++ ':' :: padNat 2 t.minute
              ++ ':' :: padNat 2 t.second ++ ',' :: padNat 6 t.micro) := by
    unfold pyAsctime
    rw [h1, dropRight_append 3 _ _ (by simp; omega)]
    rw [dropRight_cons (by omega)]
  rw [h2]
  have hA : ∀ c ∈ (padNat 4 t.year ++ '-' :: padNat 2 t.month ++ '-' :: padNat 2 t.day),
      c ≠ ' ' := by
    intro c hc
    simp only [List.mem_append, List.mem_cons, or_assoc] at hc
    rcases hc with hc | hc | hc | hc | hc
    · exact (mem_padNat_ne 4 t.year c hc).1
    · subst hc; decide
    · exact (mem_padNat_ne 2 t.month c hc).1
    · subst hc; decide
    · exact (mem_padNat_ne 2 t.day c hc).1
  have hB : ∀ c ∈ dropRight 3 (padNat 2 t.hour ++ ':' :: padNat 2 t.minute
      ++ ':' :: padNat 2 t.second ++ ',' :: padNat 6 t.micro), c ≠ ' ' ∧ c ≠ '-' := by
    intro c hc
    have hc2 := dropRight_subset _ _ c hc
    simp only [List.mem_append, List.mem_cons, or_assoc] at hc2
    rcases hc2 with hc2 | hc2 | hc2 | hc2 | hc2 | hc2 | hc2
    · exact mem_padNat_ne 2 t.hour c hc2
    · subst hc2; exact ⟨by decide, by decide⟩
    · exact mem_padNat_ne 2 t.minute c hc2
    · subst hc2; exact ⟨by decide, by decide⟩
    · exact mem_padNat_ne 2 t.second c hc2
    · subst hc2; exact ⟨by decide, by decide⟩
    · exact mem_padNat_ne 6 t.micro c hc2
  have hBne : dropRight 3 (padNat 2 t.hour ++ ':' :: padNat 2 t.minute
      ++ ':' :: padNat 2 t.second ++ ',' :: padNat 6 t.micro) ≠ [] := by
    apply List.ne_nil_of_length_pos
    rw [length_dropRight]
    omega
  exact noHit_append (noHit_space_block hB hBne z) (noHit_of_no_space hA _)

theorem startsWith_append_self (p b : Str) : startsWith p (p ++ b) = true := by
  induction p with
  | nil => rfl
  | cons c cs ih => simp [startsWith, ih]

theorem startsWith_decomp {p s : Str} (h : startsWith p s = true) :
    s = p ++ s.drop p.length := by
  induction p generalizing s with
  | nil => simp
  | cons c cs ih =>
    cases s with
    | nil => simp [startsWith] at h
    | cons d ds =>
      simp only [startsWith, Bool.and_eq_true, beq_iff_eq] at h
      obtain ⟨hcd, hrest⟩ := h
      subst hcd
      simp only [List.cons_append, List.length_cons, List.drop_succ_cons]
      exact congrArg _ (ih hrest)

theorem pySplitGo_nil (s0 : Char) (sr acc : Str) : pySplitGo s0 sr acc [] = [acc.reverse] := by
  rw [pySplitGo]

theorem pySplitGo_cons (s0 : Char) (sr acc : Str) (c : Char) (rest : Str) :
    pySplitGo s0 sr acc (c :: rest) =
      if startsWith (s0 :: sr) (c :: rest) then
        acc.reverse :: pySplitGo s0 sr [] (rest.drop sr.length)
      else pySplitGo s0 sr (c :: acc) rest := by
  rw [pySplitGo]

theorem pySplitGo_ne_nil (s0 : Char) (sr : Str) (acc s : Str) :
    pySplitGo s0 sr acc s ≠ [] := by
  induction acc, s using pySplitGo.induct s0 sr with
  | case1 acc => simp [pySplitGo_nil]
  | case2 acc c rest hsw ih =>
      rw [pySplitGo_cons, if_pos hsw]
      simp
  | case3 acc c rest hsw ih =>
      rw [pySplitGo_cons, if_neg hsw]
      exact ih

theorem pySplitGo_sep (s0 : Char) (sr acc b : Str) :
    pySplitGo s0 sr acc ((s0 :: sr) ++ b) = acc.reverse :: pySplitGo s0 sr [] b := by
  show pySplitGo s0 sr acc (s0 :: (sr ++ b)) = _
  rw [pySplitGo_cons]
  have h : startsWith (s0 :: sr) (s0 :: (sr ++ b)) = true := by
    have h2 := startsWith_append_self (s0 :: sr) b
    simpa using h2
  rw [if_pos h, List.drop_left]

theorem pySplitGo_skip {a z : Str} (h : NoHit z a) (acc : Str) :
    pySplitGo ' ' ['-', ' '] acc (a ++ z) = pySplitGo ' ' ['-', ' '] (a.reverse ++ acc) z := by
  induction a generalizing acc with
  | nil => simp
  | cons c a' ih =>
    show pySplitGo ' ' ['-', ' '] acc (c :: (a' ++ z)) = _
    rw [pySplitGo_cons]
    have hfalse : startsWith (' ' :: ['-', ' ']) (c :: (a' ++ z)) = false := by
      have h2 := h (c :: a') (List.suffix_refl _) (by simp)
      rw [sep3_eq] at h2
      simpa using h2
    rw [if_neg (by simp [hfalse])]
    have h' : NoHit z a' := fun y hy hne => h y (suffix_of_suffix_cons hy) hne
    rw [ih h']
    congr 1
    simp

theorem joinSep_cons_ne {sep : Str} {L : List Str} (x : Str) (h : L ≠ []) :
    joinSep sep (x :: L) = x ++ sep ++ joinSep sep L := by
  cases L with
  | nil => exact absurd rfl h
  | cons y t => rfl

theorem joinSep_pySplitGo (s0 : Char) (sr : Str) (acc s : Str) :
    joinSep (s0 :: sr) (pySplitGo s0 sr acc s) = acc.reverse ++ s := by
  induction acc, s using pySplitGo.induct s0 sr with
  | case1 acc => simp [pySplitGo_nil, joinSep]
  | case2 acc c rest hsw ih =>
      rw [pySplitGo_cons, if_pos hsw]
      rw [joinSep_cons_ne _ (pySplitGo_ne_nil s0 sr [] (rest.drop sr.length))]
      rw [ih]
      have hdec : c :: rest = (s0 :: sr) ++ (rest.drop sr.length) := by
        have h2 := startsWith_decomp hsw
        simpa using h2
      rw [List.append_assoc]
      simp only [List.reverse_nil, List.nil_append]
      rw [← hdec]
  | case3 acc c rest hsw ih =>
      rw [pySplitGo_cons, if_neg hsw]
      rw [ih]
      simp

theorem joinSep_pySplit (s : Str) : joinSep sep3 (pySplit sep3 s) = s := by
  have h : pySplit sep3 s = pySplitGo ' ' ['-', ' '] [] s := rfl
  rw [h, sep3_eq]
  have h2 := joinSep_pySplitGo ' ' ['-', ' '] [] s
  simpa using h2

/-- Splitting a formatted log line on the separator yields the timestamp,
the severity, and then exactly the split of the message. -/
theorem pySplit_format (t : DateTime) (lvl M : Str)
    (hlvl : lvl = "INFO".toList ∨ lvl = "ERROR".toList) :
    pySplit sep3 (AsyncLogHandler.format (log_async t lvl M)) =
      pyAsctime t :: lvl :: pySplit sep3 M := by
  have hform : AsyncLogHandler.format (log_async t lvl M) =
      pyAsctime t ++ (sep3 ++ (lvl ++ (sep3 ++ M))) := by
    simp [AsyncLogHandler.format, log_async, sep3, List.append_assoc]
  have hlvlnosp : ∀ c ∈ lvl, c ≠ ' ' := by
    rcases hlvl with h | h <;> subst h <;> decide
  have hsep : sep3 = ' ' :: ['-', ' '] := sep3_eq
  show pySplitGo ' ' ['-', ' '] [] (AsyncLogHandler.format (log_async t lvl M)) = _
  rw [hform]
  rw [pySplitGo_skip (noHit_pyAsctime t _) []]
  have hstep1 : pySplitGo ' ' ['-', ' '] ((pyAsctime t).reverse ++ []) (sep3 ++ (lvl ++ (sep3 ++ M)))
      = ((pyAsctime t).reverse ++ []).reverse :: pySplitGo ' ' ['-', ' '] [] (lvl ++ (sep3 ++ M)) := by
    rw [hsep]
    exact pySplitGo_sep ' ' ['-', ' '] _ _
  rw [hstep1]
  rw [pySplitGo_skip (noHit_of_no_space hlvlnosp _) []]
  have hstep2 : pySplitGo ' ' ['-', ' '] (lvl.reverse ++ []) (sep3 ++ M)
      = (lvl.reverse ++ []).reverse :: pySplitGo ' ' ['-', ' '] [] M := by
    rw [hsep]
    exact pySplitGo_sep ' ' ['-', ' '] _ _
  rw [hstep2]
  simp [pySplit, sep3_eq]

/-! ### Pipeline and worker helper definitions -/

/-- Whether an outcome lands in the generic except-Exception branch. -/
def isOtherB : UpRes → Bool
  | UpRes.otherErr _ => true
  | _ => false

/-- The severity log_async is called with for an outcome that does reach
log_async (INFO for success, ERROR for the two logged failures). -/
def levelOf : UpRes → Str
  | UpRes.ok => "INFO".toList
  | _ => "ERROR".toList

/-- The chunk one write_log call appends to a sink file. -/
def chunk (r : LogRecord) : Str := AsyncLogHandler.format r ++ ['\n']

/-- The chunks the info sink receives from a record sequence, in order. -/
def infoChunks (rs : List LogRecord) : List Str :=
  (rs.filter fun r => !(r.levelname == "ERROR".toList)).map chunk

/-- The chunks the error sink receives from a record sequence, in order. -/
def errorChunks (rs : List LogRecord) : List Str :=
  (rs.filter fun r => r.levelname == "ERROR".toList).map chunk

/-- Writing a record sequence to the sinks one record at a time. -/
def writeAll (rs : List LogRecord) (s : Sinks) : Sinks :=
  rs.foldl (fun acc r => AsyncLogHandler.write_log r acc) s

theorem enqueuedRecords_nil : enqueuedRecords [] = [] := rfl

theorem enqueuedRecords_put_some (r : LogRecord) (evts : List Event) :
    enqueuedRecords (Event.put (some r) :: evts) = r :: enqueuedRecords evts := rfl

theorem enqueuedRecords_put_none (evts : List Event) :
    enqueuedRecords (Event.put none :: evts) = enqueuedRecords evts := rfl

theorem enqueuedRecords_print (m : Str) (evts : List Event) :
    enqueuedRecords (Event.print m :: evts) = enqueuedRecords evts := rfl

theorem enqueuedRecords_conlog (m : Str) (evts : List Event) :
    enqueuedRecords (Event.conlog m :: evts) = enqueuedRecords evts := rfl

theorem enqueuedRecords_append (a b : List Event) :
    enqueuedRecords (a ++ b) = enqueuedRecords a ++ enqueuedRecords b := by
  simp [enqueuedRecords]

theorem queueItems_nil : queueItems [] = [] := rfl

theorem queueItems_put (it : Option LogRecord) (evts : List Event) :
    queueItems (Event.put it :: evts) = it :: queueItems evts := rfl

theorem queueItems_print (m : Str) (evts : List Event) :
    queueItems (Event.print m :: evts) = queueItems evts := rfl

theorem queueItems_conlog (m : Str) (evts : List Event) :
    queueItems (Event.conlog m :: evts) = queueItems evts := rfl

theorem queueItems_append (a b : List Event) :
    queueItems (a ++ b) = queueItems a ++ queueItems b := by
  simp [queueItems]

theorem consoleLines_nil : consoleLines [] = [] := rfl

theorem consoleLines_put (it : Option LogRecord) (evts : List Event) :
    consoleLines (Event.put it :: evts) = consoleLines evts := rfl

theorem consoleLines_print (m : Str) (evts : List Event) :
    consoleLines (Event.print m :: evts) = m :: consoleLines evts := rfl

theorem consoleLines_conlog (m : Str) (evts : List Event) :
    consoleLines (Event.conlog m :: evts) = m :: consoleLines evts := rfl

theorem consoleLines_append (a b : List Event) :
    consoleLines (a ++ b) = consoleLines a ++ consoleLines b := by
  simp [consoleLines]

/-! ### Worker lemmas -/

theorem run_spec (rs : List LogRecord) (s : Sinks) :
    AsyncLogHandler.run (rs.map some ++ [none]) s =
      ⟨s.info ++ infoChunks rs, s.error ++ errorChunks rs⟩ := by
  induction rs generalizing s with
  | nil => simp [AsyncLogHandler.run, infoChunks, errorChunks]
  | cons r rs ih =>
    show AsyncLogHandler.run (some r :: (rs.map some ++ [none])) s = _
    have hstep : AsyncLogHandler.run (some r :: (rs.map some ++ [none])) s
        = AsyncLogHandler.run (rs.map some ++ [none]) (AsyncLogHandler.write_log r s) := rfl
    rw [hstep, ih]
    by_cases h : r.levelname = "ERROR".toList
    · have hb : (r.levelname == "ERROR".toList) = true := by
        rw [beq_iff_eq]
        exact h
      rw [AsyncLogHandler.write_log, if_pos h]
      simp only [infoChunks, errorChunks, List.filter_cons, hb, Bool.not_true, Bool.false_eq_true,
        if_false, if_true, List.map_cons, chunk, Sinks.mk.injEq, List.append_assoc,
        List.singleton_append]
    · have hb : (r.levelname == "ERROR".toList) = false := by
        rw [beq_eq_false_iff_ne]
        exact h
      rw [AsyncLogHandler.write_log, if_neg h]
      simp only [infoChunks, errorChunks, List.filter_cons, hb, Bool.not_false, Bool.false_eq_true,
        if_false, if_true, List.map_cons, chunk, Sinks.mk.injEq, List.append_assoc,
        List.singleton_append]

theorem run_ignores (rs : List LogRecord) (B : List (Option LogRecord)) (s : Sinks) :
    AsyncLogHandler.run (rs.map some ++ none :: B) s =
      AsyncLogHandler.run (rs.map some ++ [none]) s := by
  induction rs generalizing s with
  | nil => rfl
  | cons r rs ih => exact ih (AsyncLogHandler.write_log r s)

theorem runExc_crash (fail : Nat → Bool) (A : List LogRecord) (r : LogRecord)
    (B : List (Option LogRecord)) (i : Nat) (s : Sinks)
    (hA : ∀ j, j < A.length → fail (i + j) = false) (hr : fail (i + A.length) = true) :
    AsyncLogHandler.runExc fail (A.map some ++ some r :: B) i s =
      (writeAll A s, AsyncLogHandler.WExit.crashed, B) := by
  induction A generalizing i s with
  | nil =>
    show AsyncLogHandler.runExc fail (some r :: B) i s = _
    have hi : fail i = true := by simpa using hr
    simp only [AsyncLogHandler.runExc, hi, if_true]
    rfl
  | cons a A' ih =>
    show AsyncLogHandler.runExc fail (some a :: (A'.map some ++ some r :: B)) i s = _
    have h0 : fail i = false := by simpa using hA 0 (by simp)
    simp only [AsyncLogHandler.runExc, h0]
    have hA' : ∀ j, j < A'.length → fail ((i + 1) + j) = false := by
      intro j hj
      have h2 := hA (j + 1) (by simp; omega)
      have h3 : i + (j + 1) = i + 1 + j := by omega
      rwa [h3] at h2
    have hr' : fail ((i + 1) + A'.length) = true := by
      have h3 : i + (a :: A').length = i + 1 + A'.length := by simp; omega
      rwa [h3] at hr
    rw [ih (i + 1) (AsyncLogHandler.write_log a s) hA' hr']
    rfl

/-! ### Upload loop lemmas -/

theorem pf_attempted_indep (beh : Str → UpRes) (clock : Nat → DateTime) (bucket : Str)
    (fs : List Str) (k k' : Nat) :
    (processFiles beh clock bucket fs k).attempted
      = (processFiles beh clock bucket fs k').attempted := by
  induction fs generalizing k k' with
  | nil => rfl
  | cons f fs ih =>
    cases hbf : beh f with
    | ok =>
      simp only [processFiles, hbf]
      rw [ih (k + 1) (k' + 1)]
    | notFound =>
      simp only [processFiles, hbf]
      rw [ih (k + 1) (k' + 1)]
    | noCreds => simp only [processFiles, hbf]
    | otherErr e =>
      simp only [processFiles, hbf]
      rw [ih k k']

theorem pd_attempted_indep (beh : Str → UpRes) (clock : Nat → DateTime) (bucket : Str)
    (ds : List (List Str)) (k k' : Nat) :
    (processDirs beh clock bucket ds k).attempted
      = (processDirs beh clock bucket ds k').attempted := by
  induction ds generalizing k k' with
  | nil => rfl
  | cons d ds ih =>
    simp only [processDirs]
    rw [pf_attempted_indep beh clock bucket d k k',
      ih ((processFiles beh clock bucket d k).nextK) ((processFiles beh clock bucket d k').nextK)]

theorem pd_append (beh : Str → UpRes) (clock : Nat → DateTime) (bucket : Str)
    (ds1 ds2 : List (List Str)) (k : Nat) :
    processDirs beh clock bucket (ds1 ++ ds2) k =
      ⟨(processDirs beh clock bucket ds1 k).attempted
          ++ (processDirs beh clock bucket ds2
                (processDirs beh clock bucket ds1 k).nextK).attempted,
        (processDirs beh clock bucket ds1 k).events
          ++ (processDirs beh clock bucket ds2
                (processDirs beh clock bucket ds1 k).nextK).events,
        (processDirs beh clock bucket ds2 (processDirs beh clock bucket ds1 k).nextK).nextK⟩ := by
  induction ds1 generalizing k with
  | nil => rfl
  | cons d ds1 ih =>
    simp only [List.cons_append, List.append_eq, processDirs]
    rw [ih]
    simp [List.append_assoc]

theorem pf_all (beh : Str → UpRes) (clock : Nat → DateTime) (bucket : Str)
    (fs : List Str) (k : Nat) :
    (∀ f ∈ fs, beh f ≠ UpRes.noCreds) →
      (processFiles beh clock bucket fs k).attempted = fs := by
  induction fs generalizing k with
  | nil => intro _; rfl
  | cons f fs ih =>
    intro h
    have hf := h f (List.mem_cons_self f fs)
    have hrest : ∀ g ∈ fs, beh g ≠ UpRes.noCreds := fun g hg => h g (List.mem_cons_of_mem f hg)
    cases hbf : beh f with
    | ok =>
      simp only [processFiles, hbf]
      rw [ih (k + 1) hrest]
    | notFound =>
      simp only [processFiles, hbf]
      rw [ih (k + 1) hrest]
    | noCreds => exact absurd hbf hf
    | otherErr e =>
      simp only [processFiles, hbf]
      rw [ih k hrest]

theorem pd_all (beh : Str → UpRes) (clock : Nat → DateTime) (bucket : Str)
    (ds : List (List Str)) (k : Nat) :
    (∀ f ∈ ds.flatten, beh f ≠ UpRes.noCreds) →
      (processDirs beh clock bucket ds k).attempted = ds.flatten := by
  induction ds generalizing k with
  | nil => intro _; rfl
  | cons d ds ih =>
    intro h
    simp only [List.flatten_cons, List.mem_append] at h
    have hd : ∀ f ∈ d, beh f ≠ UpRes.noCreds := fun f hf => h f (Or.inl hf)
    have hrest : ∀ f ∈ ds.flatten, beh f ≠ UpRes.noCreds := fun f hf => h f (Or.inr hf)
    simp only [processDirs, List.flatten_cons]
    rw [pf_all beh clock bucket d k hd, ih _ hrest]

theorem isOtherB_ok : isOtherB UpRes.ok = false := rfl

theorem isOtherB_notFound : isOtherB UpRes.notFound = false := rfl

theorem isOtherB_noCreds : isOtherB UpRes.noCreds = false := rfl

theorem isOtherB_otherErr (e : Str) : isOtherB (UpRes.otherErr e) = true := rfl

theorem levelOf_ok : levelOf UpRes.ok = "INFO".toList := rfl

theorem levelOf_notFound : levelOf UpRes.notFound = "ERROR".toList := rfl

theorem levelOf_noCreds : levelOf UpRes.noCreds = "ERROR".toList := rfl

theorem pf_levels (beh : Str → UpRes) (clock : Nat → DateTime) (bucket : Str)
    (fs : List Str) (k : Nat) :
    (enqueuedRecords (processFiles beh clock bucket fs k).events).map (fun r => r.levelname)
      = ((processFiles beh clock bucket fs k).attempted.filter
          fun f => !(isOtherB (beh f))).map (fun f => levelOf (beh f)) := by
  induction fs generalizing k with
  | nil => rfl
  | cons f fs ih =>
    cases hbf : beh f with
    | ok =>
      simp only [processFiles, hbf, enqueuedRecords_put_some, enqueuedRecords_print,
        List.filter_cons, isOtherB_ok, Bool.not_false, if_true, List.map_cons, log_async,
        levelOf_ok]
      rw [ih (k + 1)]
    | notFound =>
      simp only [processFiles, hbf, enqueuedRecords_put_some,
        List.filter_cons, isOtherB_notFound, Bool.not_false, if_true, List.map_cons, log_async,
        levelOf_notFound]
      rw [ih (k + 1)]
    | noCreds =>
      simp only [processFiles, hbf, enqueuedRecords_put_some, enqueuedRecords_nil,
        List.filter_cons, isOtherB_noCreds, Bool.not_false, if_true, List.map_cons, List.map_nil,
        List.filter_nil, log_async, levelOf_noCreds]
    | otherErr e =>
      simp only [processFiles, hbf, enqueuedRecords_conlog,
        List.filter_cons, isOtherB_otherErr, Bool.not_true, Bool.false_eq_true, if_false]
      rw [ih k]

theorem pd_levels (beh : Str → UpRes) (clock : Nat → DateTime) (bucket : Str)
    (ds : List (List Str)) (k : Nat) :
    (enqueuedRecords (processDirs beh clock bucket ds k).events).map (fun r => r.levelname)
      = ((processDirs beh clock bucket ds k).attempted.filter
          fun f => !(isOtherB (beh f))).map (fun f => levelOf (beh f)) := by
  induction ds generalizing k with
  | nil => rfl
  | cons d ds ih =>
    simp only [processDirs, enqueuedRecords_append, List.map_append, List.filter_append]
    rw [pf_levels, ih]

theorem pf_queue (beh : Str → UpRes) (clock : Nat → DateTime) (bucket : Str)
    (fs : List Str) (k : Nat) :
    queueItems (processFiles beh clock bucket fs k).events
      = (enqueuedRecords (processFiles beh clock bucket fs k).events).map some := by
  induction fs generalizing k with
  | nil => rfl
  | cons f fs ih =>
    cases hbf : beh f with
    | ok =>
      simp only [processFiles, hbf, queueItems_put, queueItems_print,
        enqueuedRecords_put_some, enqueuedRecords_print, List.map_cons]
      rw [ih (k + 1)]
    | notFound =>
      simp only [processFiles, hbf, queueItems_put,
        enqueuedRecords_put_some, List.map_cons]
      rw [ih (k + 1)]
    | noCreds =>
      simp only [processFiles, hbf, queueItems_put, queueItems_nil,
        enqueuedRecords_put_some, enqueuedRecords_nil, List.map_cons, List.map_nil]
    | otherErr e =>
      simp only [processFiles, hbf, queueItems_conlog, enqueuedRecords_conlog]
      rw [ih k]

theorem pd_queue (beh : Str → UpRes) (clock : Nat → DateTime) (bucket : Str)
    (ds : List (List Str)) (k : Nat) :
    queueItems (processDirs beh clock bucket ds k).events
      = (enqueuedRecords (processDirs beh clock bucket ds k).events).map some := by
  induction ds generalizing k with
  | nil => rfl
  | cons d ds ih =>
    simp only [processDirs, queueItems_append, enqueuedRecords_append, List.map_append]
    rw [pf_queue, ih]

theorem pf_console (beh : Str → UpRes) (clock : Nat → DateTime) (bucket : Str)
    (fs : List Str) (k : Nat) :
    consoleLines (processFiles beh clock bucket fs k).events
      = (processFiles beh clock bucket fs k).attempted.filterMap (fun f =>
          match beh f with
          | UpRes.ok => some (uploadMsg f bucket)
          | UpRes.otherErr e => some (otherMsg f e)
          | _ => none) := by
  induction fs generalizing k with
  | nil => rfl
  | cons f fs ih =>
    cases hbf : beh f with
    | ok =>
      simp only [processFiles, hbf, consoleLines_put, consoleLines_print, List.filterMap_cons]
      rw [ih (k + 1)]
    | notFound =>
      simp only [processFiles, hbf, consoleLines_put, List.filterMap_cons]
      rw [ih (k + 1)]
    | noCreds =>
      simp only [processFiles, hbf, consoleLines_put, consoleLines_nil, List.filterMap_cons]
      rfl
    | otherErr e =>
      simp only [processFiles, hbf, consoleLines_conlog, List.filterMap_cons]
      rw [ih k]

theorem pd_console (beh : Str → UpRes) (clock : Nat → DateTime) (bucket : Str)
    (ds : List (List Str)) (k : Nat) :
    consoleLines (processDirs beh clock bucket ds k).events
      = (processDirs beh clock bucket ds k).attempted.filterMap (fun f =>
          match beh f with
          | UpRes.ok => some (uploadMsg f bucket)
          | UpRes.otherErr e => some (otherMsg f e)
          | _ => none) := by
  induction ds generalizing k with
  | nil => rfl
  | cons d ds ih =>
    simp only [processDirs, consoleLines_append, List.filterMap_append]
    rw [pf_console, ih]

theorem upload_attempted (beh : Str → UpRes) (clock : Nat → DateTime) (bucket : Str)
    (walk : List (List Str)) :
    (upload_directory_to_s3 beh clock bucket walk).1
      = (processDirs beh clock bucket walk 0).attempted := rfl

theorem upload_events (beh : Str → UpRes) (clock : Nat → DateTime) (bucket : Str)
    (walk : List (List Str)) :
    (upload_directory_to_s3 beh clock bucket walk).2
      = (processDirs beh clock bucket walk 0).events ++ [Event.put none] := rfl

theorem upload_enqueued (beh : Str → UpRes) (clock : Nat → DateTime) (bucket : Str)
    (walk : List (List Str)) :
    enqueuedRecords (upload_directory_to_s3 beh clock bucket walk).2
      = enqueuedRecords (processDirs beh clock bucket walk 0).events := by
  rw [upload_events, enqueuedRecords_append]
  simp [enqueuedRecords]

theorem upload_queueItems (beh : Str → UpRes) (clock : Nat → DateTime) (bucket : Str)
    (walk : List (List Str)) :
    queueItems (upload_directory_to_s3 beh clock bucket walk).2
      = (enqueuedRecords (upload_directory_to_s3 beh clock bucket walk).2).map some
          ++ [none] := by
  rw [upload_enqueued, upload_events, queueItems_append, pd_queue]
  rfl

theorem upload_consoleLines (beh : Str → UpRes) (clock : Nat → DateTime) (bucket : Str)
    (walk : List (List Str)) :
    consoleLines (upload_directory_to_s3 beh clock bucket walk).2
      = consoleLines (processDirs beh clock bucket walk 0).events := by
  rw [upload_events, consoleLines_append]
  simp [consoleLines]

theorem pf_halt_attempted (beh : Str → UpRes) (clock : Nat → DateTime) (bucket : Str)
    (d1 : List Str) (f : Str) (d2 : List Str) (k : Nat) :
    (∀ g ∈ d1, beh g ≠ UpRes.noCreds) → beh f = UpRes.noCreds →
      (processFiles beh clock bucket (d1 ++ f :: d2) k).attempted = d1 ++ [f] := by
  induction d1 generalizing k with
  | nil =>
    intro _ hf
    simp only [List.nil_append, processFiles, hf]
  | cons g d1 ih =>
    intro h1 hf
    have hrest : ∀ x ∈ d1, beh x ≠ UpRes.noCreds := fun x hx => h1 x (List.mem_cons_of_mem g hx)
    cases hbg : beh g with
    | ok =>
      simp only [List.cons_append, List.append_eq, processFiles, hbg]
      rw [ih (k + 1) hrest hf]
    | notFound =>
      simp only [List.cons_append, List.append_eq, processFiles, hbg]
      rw [ih (k + 1) hrest hf]
    | noCreds => exact absurd hbg (h1 g (List.mem_cons_self g d1))
    | otherErr e =>
      simp only [List.cons_append, List.append_eq, processFiles, hbg]
      rw [ih k hrest hf]

theorem pf_halt_events (beh : Str → UpRes) (clock : Nat → DateTime) (bucket : Str)
    (d1 : List Str) (f : Str) (d2 : List Str) (k : Nat) :
    (∀ g ∈ d1, beh g ≠ UpRes.noCreds) → beh f = UpRes.noCreds →
      ∃ pre r, (processFiles beh clock bucket (d1 ++ f :: d2) k).events
          = pre ++ [Event.put (some r)]
        ∧ r.levelname = "ERROR".toList ∧ r.message = credsMsg := by
  induction d1 generalizing k with
  | nil =>
    intro _ hf
    refine ⟨[], log_async (clock k) "ERROR".toList credsMsg, ?_, rfl, rfl⟩
    simp only [List.nil_append, processFiles, hf]
  | cons g d1 ih =>
    intro h1 hf
    have hrest : ∀ x ∈ d1, beh x ≠ UpRes.noCreds := fun x hx => h1 x (List.mem_cons_of_mem g hx)
    cases hbg : beh g with
    | ok =>
      obtain ⟨pre, r, he, hr1, hr2⟩ := ih (k + 1) hrest hf
      refine ⟨Event.put (some (log_async (clock k) "INFO".toList (uploadMsg g bucket)))
          :: Event.print (uploadMsg g bucket) :: pre, r, ?_, hr1, hr2⟩
      simp only [List.cons_append, List.append_eq, processFiles, hbg, he]
    | notFound =>
      obtain ⟨pre, r, he, hr1, hr2⟩ := ih (k + 1) hrest hf
      refine ⟨Event.put (some (log_async (clock k) "ERROR".toList (notFoundMsg g))) :: pre,
        r, ?_, hr1, hr2⟩
      simp only [List.cons_append, List.append_eq, processFiles, hbg, he]
    | noCreds => exact absurd hbg (h1 g (List.mem_cons_self g d1))
    | otherErr e =>
      obtain ⟨pre, r, he, hr1, hr2⟩ := ih k hrest hf
      refine ⟨Event.conlog (otherMsg g e) :: pre, r, ?_, hr1, hr2⟩
      simp only [List.cons_append, List.append_eq, processFiles, hbg, he]

theorem chunk_mem (rs : List LogRecord) (r : LogRecord) (hr : r ∈ rs) :
    chunk r ∈ infoChunks rs ∨ chunk r ∈ errorChunks rs := by
  by_cases h : r.levelname = "ERROR".toList
  · right
    exact List.mem_map_of_mem chunk (List.mem_filter.mpr ⟨hr, by rw [beq_iff_eq]; exact h⟩)
  · left
    refine List.mem_map_of_mem chunk (List.mem_filter.mpr ⟨hr, ?_⟩)
    rw [Bool.not_eq_true']
    rw [beq_eq_false_iff_ne]
    exact h

/-! ### Concrete instances used by counterexamples and witnesses -/

def fileA : Str := "a.txt".toList

def fileB : Str := "b.txt".toList

def bucket0 : Str := "lior-kovtun-bucket-test-two".toList

def clock0 : Nat → DateTime := fun _ => ⟨2024, 1, 2, 3, 4, 5, 123456⟩

def behOk : Str → UpRes := fun _ => UpRes.ok

def behNF : Str → UpRes := fun _ => UpRes.notFound

def behBoom : Str → UpRes := fun _ => UpRes.otherErr "boom".toList

def behC1 : Str → UpRes := fun f => if f = fileA then UpRes.noCreds else UpRes.ok

def recA : LogRecord := log_async (clock0 0) "INFO".toList (uploadMsg fileA bucket0)

def rec1 : LogRecord := ⟨"t1".toList, "INFO".toList, "m1".toList⟩

def rec2 : LogRecord := ⟨"t2".toList, "INFO".toList, "m2".toList⟩

def fail1 : Nat → Bool := fun i => i == 1

def sysInit3 : Sys :=
  ⟨[Event.put (some recA), Event.print (uploadMsg fileA bucket0), Event.put none],
    [], ⟨[], []⟩, [], false⟩

def sysEnd3 : Sys :=
  ⟨[], [some recA, none], ⟨[], []⟩, [uploadMsg fileA bucket0], false⟩

def sysInit10 : Sys := ⟨[Event.put none], [], ⟨[], []⟩, [], false⟩

def sysEnd10 : Sys := ⟨[], [none], ⟨[], []⟩, [], false⟩

def fail0 : Nat → Bool := fun i => i == 0

theorem pd_empty (beh : Str → UpRes) (clock : Nat → DateTime) (bucket : Str)
    (walk : List (List Str)) (k : Nat) :
    (∀ d ∈ walk, d = []) → processDirs beh clock bucket walk k = ⟨[], [], k⟩ := by
  induction walk generalizing k with
  | nil => intro _; rfl
  | cons d ds ih =>
    intro h
    have hd := h d (List.mem_cons_self d ds)
    subst hd
    have hrest : ∀ x ∈ ds, x = [] := fun x hx => h x (List.mem_cons_of_mem _ hx)
    simp only [processDirs, processFiles]
    rw [ih k hrest]
    simp

/-! ### Claim theorems -/

/-- C1 (counterexample): a walk of two directories, the first containing
only a file whose upload raises NoCredentialsError, the second containing
an uploadable file.  The halting file is the 1st of N = 2 enumerated
files, so the claim predicts exactly 1 attempted upload and that the
second file is never attempted; but the break leaves only the inner loop,
so the code attempts both files. -/
theorem C1_counterexample :
    behC1 fileA = UpRes.noCreds
    ∧ (upload_directory_to_s3 behC1 clock0 bucket0 [[fileA], [fileB]]).1 = [fileA, fileB]
    ∧ ¬ ((upload_directory_to_s3 behC1 clock0 bucket0 [[fileA], [fileB]]).1.length = 1) := by
  refine ⟨by decide, by decide, by decide⟩

/-- C1 (amended): a CredentialsMissing outcome stops the upload loop only
for the remainder of the directory being processed: within that directory
the files before the halting one plus the halting one are attempted and
that directory's event sequence ends with the single credentials ERROR
record, but directories later in the walk are still processed in full. -/
theorem C1_theorem (beh : Str → UpRes) (clock : Nat → DateTime) (bucket : Str)
    (ds1 ds2 : List (List Str)) (d1 : List Str) (f : Str) (d2 : List Str) (k : Nat)
    (h1 : ∀ g ∈ d1, beh g ≠ UpRes.noCreds) (h2 : beh f = UpRes.noCreds) :
    (processFiles beh clock bucket (d1 ++ f :: d2) k).attempted = d1 ++ [f]
    ∧ (∃ pre r, (processFiles beh clock bucket (d1 ++ f :: d2) k).events
          = pre ++ [Event.put (some r)]
        ∧ r.levelname = "ERROR".toList ∧ r.message = credsMsg)
    ∧ (upload_directory_to_s3 beh clock bucket (ds1 ++ (d1 ++ f :: d2) :: ds2)).1
        = (upload_directory_to_s3 beh clock bucket ds1).1 ++ (d1 ++ [f])
          ++ (upload_directory_to_s3 beh clock bucket ds2).1 := by
  refine ⟨pf_halt_attempted beh clock bucket d1 f d2 k h1 h2,
    pf_halt_events beh clock bucket d1 f d2 k h1 h2, ?_⟩
  simp only [upload_attempted]
  rw [pd_append beh clock bucket ds1 ((d1 ++ f :: d2) :: ds2) 0]
  simp only [processDirs]
  rw [pf_halt_attempted beh clock bucket d1 f d2
    ((processDirs beh clock bucket ds1 0).nextK) h1 h2]
  rw [pd_attempted_indep beh clock bucket ds2
    ((processFiles beh clock bucket (d1 ++ f :: d2)
      ((processDirs beh clock bucket ds1 0).nextK)).nextK) 0]
  simp [List.append_assoc]

/-- C1 (witness): the amended theorem at the concrete halting run. -/
theorem C1_witness :
    (∀ g ∈ ([] : List Str), behC1 g ≠ UpRes.noCreds) ∧ behC1 fileA = UpRes.noCreds
    ∧ ((processFiles behC1 clock0 bucket0 ([] ++ fileA :: []) 0).attempted = [] ++ [fileA]
      ∧ (∃ pre r, (processFiles behC1 clock0 bucket0 ([] ++ fileA :: []) 0).events
            = pre ++ [Event.put (some r)]
          ∧ r.levelname = "ERROR".toList ∧ r.message = credsMsg)
      ∧ (upload_directory_to_s3 behC1 clock0 bucket0 ([] ++ ([] ++ fileA :: []) :: [[fileB]])).1
          = (upload_directory_to_s3 behC1 clock0 bucket0 []).1 ++ ([] ++ [fileA])
            ++ (upload_directory_to_s3 behC1 clock0 bucket0 [[fileB]]).1) :=
  ⟨by simp, by decide,
    C1_theorem behC1 clock0 bucket0 [] [[fileB]] [] fileA [] 0 (by simp) (by decide)⟩

/-- C2 (counterexample): a single file whose upload raises a generic
exception is attempted, yet zero LogRecords reach the queue (the generic
except branch logs through the console logger only), refuting "exactly one
LogRecord is enqueued per attempted file, ERROR for OtherFailure". -/
theorem C2_counterexample :
    (upload_directory_to_s3 behBoom clock0 bucket0 [[fileA]]).1 = [fileA]
    ∧ enqueuedRecords (upload_directory_to_s3 behBoom clock0 bucket0 [[fileA]]).2 = [] :=
  ⟨rfl, rfl⟩

/-- C2 (amended): each attempted file with outcome Success, NotFound or
CredentialsMissing enqueues exactly one LogRecord before the loop moves
on (INFO for Success, ERROR for the two failures); an OtherFailure
attempt enqueues nothing (console only).  Hence a run over N files with no
credentials halt and no OtherFailure enqueues exactly N records. -/
theorem C2_theorem (beh : Str → UpRes) (clock : Nat → DateTime) (bucket : Str)
    (walk : List (List Str)) :
    (enqueuedRecords (upload_directory_to_s3 beh clock bucket walk).2).map
        (fun r => r.levelname)
      = ((upload_directory_to_s3 beh clock bucket walk).1.filter
          fun f => !(isOtherB (beh f))).map (fun f => levelOf (beh f))
    ∧ ((∀ f ∈ walk.flatten, beh f ≠ UpRes.noCreds ∧ isOtherB (beh f) = false) →
        (upload_directory_to_s3 beh clock bucket walk).1 = walk.flatten
        ∧ (enqueuedRecords (upload_directory_to_s3 beh clock bucket walk).2).length
            = walk.flatten.length) := by
  have hmain : (enqueuedRecords (upload_directory_to_s3 beh clock bucket walk).2).map
        (fun r => r.levelname)
      = ((upload_directory_to_s3 beh clock bucket walk).1.filter
          fun f => !(isOtherB (beh f))).map (fun f => levelOf (beh f)) := by
    rw [upload_enqueued, upload_attempted]
    exact pd_levels beh clock bucket walk 0
  refine ⟨hmain, fun h => ?_⟩
  have hatt : (upload_directory_to_s3 beh clock bucket walk).1 = walk.flatten := by
    rw [upload_attempted]
    exact pd_all beh clock bucket walk 0 (fun f hf => (h f hf).1)
  refine ⟨hatt, ?_⟩
  have hlen := congrArg List.length hmain
  simp only [List.length_map] at hlen
  rw [hlen, hatt]
  have hall : ∀ f ∈ walk.flatten, (!(isOtherB (beh f))) = true := by
    intro f hf
    rw [Bool.not_eq_true']
    exact (h f hf).2
  rw [List.filter_eq_self.mpr hall]

/-- C2 (witness): the amended theorem at a one-file all-success run. -/
theorem C2_witness :
    (∀ f ∈ ([[fileA]] : List (List Str)).flatten,
      behOk f ≠ UpRes.noCreds ∧ isOtherB (behOk f) = false)
    ∧ ((upload_directory_to_s3 behOk clock0 bucket0 [[fileA]]).1
          = ([[fileA]] : List (List Str)).flatten
      ∧ (enqueuedRecords (upload_directory_to_s3 behOk clock0 bucket0 [[fileA]]).2).length
          = ([[fileA]] : List (List Str)).flatten.length) :=
  ⟨by decide, (C2_theorem behOk clock0 bucket0 [[fileA]]).2 (by decide)⟩

/-- C3 (counterexample): an interleaved execution of a one-file run in
which the uploader thread performs all its actions (ending with the
sentinel enqueue) before the worker runs at all: the run has returned
(pending empty) while the record enqueued before the sentinel is still in
the queue and both sinks are empty, so the final queue put does not block
until the worker has drained. -/
theorem C3_counterexample :
    sysInit3.pending = (upload_directory_to_s3 behOk clock0 bucket0 [[fileA]]).2
    ∧ Reach sysInit3 sysEnd3
    ∧ sysEnd3.pending = []
    ∧ sysEnd3.workerDone = false
    ∧ some recA ∈ sysEnd3.queue
    ∧ sysEnd3.sinks.info = []
    ∧ sysEnd3.sinks.error = [] := by
  refine ⟨rfl, ?_, rfl, rfl, ?_, rfl, rfl⟩
  · exact Reach.step (Step.prod (Event.put (some recA))
        [Event.print (uploadMsg fileA bucket0), Event.put none] [] ⟨[], []⟩ [] false)
      (Reach.step (Step.prod (Event.print (uploadMsg fileA bucket0)) [Event.put none]
          [some recA] ⟨[], []⟩ [] false)
        (Reach.step (Step.prod (Event.put none) [] [some recA] ⟨[], []⟩
            [uploadMsg fileA bucket0] false)
          (Reach.refl sysEnd3)))
  · exact List.mem_cons_self _ _

/-- C3 (amended): the final queue put enqueues the sentinel as the last
queue item and returns without waiting; every record enqueued during the
run precedes the sentinel, so a worker that drains the queue to the
sentinel has written every such record to one of the two sinks (but this
need not have happened by the time the run returns). -/
theorem C3_theorem (beh : Str → UpRes) (clock : Nat → DateTime) (bucket : Str)
    (walk : List (List Str)) :
    queueItems (upload_directory_to_s3 beh clock bucket walk).2
      = (enqueuedRecords (upload_directory_to_s3 beh clock bucket walk).2).map some ++ [none]
    ∧ ∀ r ∈ enqueuedRecords (upload_directory_to_s3 beh clock bucket walk).2,
        chunk r ∈ (AsyncLogHandler.run
            (queueItems (upload_directory_to_s3 beh clock bucket walk).2) ⟨[], []⟩).info
        ∨ chunk r ∈ (AsyncLogHandler.run
            (queueItems (upload_directory_to_s3 beh clock bucket walk).2) ⟨[], []⟩).error := by
  refine ⟨upload_queueItems beh clock bucket walk, ?_⟩
  intro r hr
  rw [upload_queueItems beh clock bucket walk, run_spec]
  simpa using chunk_mem _ r hr

/-- C3 (witness): the amended theorem applied to a concrete one-file run
and its one enqueued record. -/
theorem C3_witness :
    recA ∈ enqueuedRecords (upload_directory_to_s3 behOk clock0 bucket0 [[fileA]]).2
    ∧ (chunk recA ∈ (AsyncLogHandler.run
          (queueItems (upload_directory_to_s3 behOk clock0 bucket0 [[fileA]]).2) ⟨[], []⟩).info
      ∨ chunk recA ∈ (AsyncLogHandler.run
          (queueItems (upload_directory_to_s3 behOk clock0 bucket0 [[fileA]]).2) ⟨[], []⟩).error) := by
  have hmem : recA ∈ enqueuedRecords (upload_directory_to_s3 behOk clock0 bucket0 [[fileA]]).2 := by
    show recA ∈ [recA]
    exact List.mem_cons_self recA []
  exact ⟨hmem, (C3_theorem behOk clock0 bucket0 [[fileA]]).2 recA hmem⟩

/-- C4 (counterexample): with a sink-write failure at the first record of
a two-record queue, the (uncaught) exception ends the worker loop: the
run result is crashed with both sinks empty and the second record (and
sentinel) left unprocessed — the worker does not continue with the next
queued record, while a failure-free worker would have written both. -/
theorem C4_counterexample :
    AsyncLogHandler.runExc fail0 [some rec1, some rec2, none] 0 ⟨[], []⟩
      = (⟨[], []⟩, AsyncLogHandler.WExit.crashed, [some rec2, none])
    ∧ AsyncLogHandler.run [some rec1, some rec2, none] ⟨[], []⟩
        = ⟨[chunk rec1, chunk rec2], []⟩ := by
  refine ⟨by decide, by decide⟩

/-- C4 (amended): the source has no try/except around write_log, so the
first failing sink write terminates the worker loop: the records before
it are written normally, the loop exits in the crashed state (Python
reports the uncaught thread exception to stderr), and every queue item
after the failing record is left unprocessed; nothing propagates into the
upload thread. -/
theorem C4_theorem (fail : Nat → Bool) (A : List LogRecord) (r : LogRecord)
    (B : List (Option LogRecord)) (s : Sinks)
    (hA : ∀ j, j < A.length → fail j = false) (hr : fail A.length = true) :
    AsyncLogHandler.runExc fail (A.map some ++ some r :: B) 0 s
      = (writeAll A s, AsyncLogHandler.WExit.crashed, B) := by
  have hA' : ∀ j, j < A.length → fail (0 + j) = false := by simpa using hA
  have hr' : fail (0 + A.length) = true := by simpa using hr
  exact runExc_crash fail A r B 0 s hA' hr'

/-- C4 (witness): the amended theorem with one successful write followed
by a failing one. -/
theorem C4_witness :
    (∀ j, j < ([rec1] : List LogRecord).length → fail1 j = false)
    ∧ fail1 ([rec1] : List LogRecord).length = true
    ∧ AsyncLogHandler.runExc fail1 (([rec1] : List LogRecord).map some ++ some rec2 :: [none])
        0 ⟨[], []⟩
      = (writeAll [rec1] ⟨[], []⟩, AsyncLogHandler.WExit.crashed, [none]) :=
  ⟨by decide, by decide, C4_theorem fail1 [rec1] rec2 [none] ⟨[], []⟩ (by decide) (by decide)⟩

/-- C5 (confirmed): the single worker dequeues and writes one record at a
time in queue order, so after draining records R1..Rk followed by the
sentinel, each sink has been extended by exactly the chunks of the
records routed to it, in their original relative submission order
(an order-preserving filter of the submitted sequence). -/
theorem C5_theorem (rs : List LogRecord) (s : Sinks) :
    AsyncLogHandler.run (rs.map some ++ [none]) s
      = ⟨s.info ++ infoChunks rs, s.error ++ errorChunks rs⟩ :=
  run_spec rs s

/-- C6 (confirmed): write_log appends exactly one chunk per record to the
sink file selected by the routing rule (severity ERROR to the error sink,
anything else to the info sink), the chunk being the formatted line
"<timestamp> - <SEVERITY> - <message>" plus a newline, and the asctime
timestamp carries millisecond precision: the [:-3] slice of the
microsecond strftime output is the date-time-to-seconds prefix followed
by a comma and the 3-digit milliseconds. -/
theorem C6_theorem (r : LogRecord) (s : Sinks) (t : DateTime) (hus : t.micro < 1000000) :
    (r.levelname = "ERROR".toList →
      AsyncLogHandler.write_log r s
        = ⟨s.info, s.error ++ [AsyncLogHandler.format r ++ ['\n']]⟩)
    ∧ (r.levelname ≠ "ERROR".toList →
      AsyncLogHandler.write_log r s
        = ⟨s.info ++ [AsyncLogHandler.format r ++ ['\n']], s.error⟩)
    ∧ AsyncLogHandler.format r
        = r.asctime ++ " - ".toList ++ r.levelname ++ " - ".toList ++ r.message
    ∧ pyAsctime t = strfSec t ++ ',' :: padNat 3 (t.micro / 1000) := by
  refine ⟨fun h => ?_, fun h => ?_, rfl, pyAsctime_msec t hus⟩
  · rw [AsyncLogHandler.write_log, if_pos h]
  · rw [AsyncLogHandler.write_log, if_neg h]

/-- C6 (witness): the routing/format/precision theorem at a concrete
record, empty sinks, and a concrete clock instant. -/
theorem C6_witness :
    (clock0 0).micro < 1000000
    ∧ ((rec1.levelname = "ERROR".toList →
        AsyncLogHandler.write_log rec1 ⟨[], []⟩
          = ⟨[], [] ++ [AsyncLogHandler.format rec1 ++ ['\n']]⟩)
      ∧ (rec1.levelname ≠ "ERROR".toList →
        AsyncLogHandler.write_log rec1 ⟨[], []⟩
          = ⟨[] ++ [AsyncLogHandler.format rec1 ++ ['\n']], []⟩)
      ∧ AsyncLogHandler.format rec1
          = rec1.asctime ++ " - ".toList ++ rec1.levelname ++ " - ".toList ++ rec1.message
      ∧ pyAsctime (clock0 0)
          = strfSec (clock0 0) ++ ',' :: padNat 3 ((clock0 0).micro / 1000)) :=
  ⟨by decide, C6_theorem rec1 ⟨[], []⟩ (clock0 0) (by decide)⟩

/-- C7 (counterexample): a one-file run whose upload hits
FileNotFoundError produces an ERROR record on the queue but no console
output at all — the NotFound outcome is not echoed to the console,
refuting "every outcome is echoed to the console in real time". -/
theorem C7_counterexample :
    consoleLines (upload_directory_to_s3 behNF clock0 bucket0 [[fileA]]).2 = []
    ∧ (enqueuedRecords (upload_directory_to_s3 behNF clock0 bucket0 [[fileA]]).2).length = 1 :=
  ⟨rfl, rfl⟩

/-- C7 (amended): the console mirrors exactly the Success outcomes (via
print) and the OtherFailure outcomes (via the console logger); NotFound
and CredentialsMissing outcomes produce no console output, only queued
records. -/
theorem C7_theorem (beh : Str → UpRes) (clock : Nat → DateTime) (bucket : Str)
    (walk : List (List Str)) :
    consoleLines (upload_directory_to_s3 beh clock bucket walk).2
      = (upload_directory_to_s3 beh clock bucket walk).1.filterMap (fun f =>
          match beh f with
          | UpRes.ok => some (uploadMsg f bucket)
          | UpRes.otherErr e => some (otherMsg f e)
          | _ => none) := by
  rw [upload_consoleLines, upload_attempted]
  exact pd_console beh clock bucket walk 0

/-- C8 (confirmed): parsing a written log line by splitting on " - "
recovers the severity as the second field and the message, exactly, as
the remaining fields rejoined on the separator — for every message,
every timestamp, and both severities the code uses. -/
theorem C8_theorem (t : DateTime) (lvl M : Str)
    (h : lvl = "INFO".toList ∨ lvl = "ERROR".toList) :
    parsedSeverity (AsyncLogHandler.format (log_async t lvl M)) = some lvl
    ∧ parsedMessage (AsyncLogHandler.format (log_async t lvl M)) = M := by
  have hs := pySplit_format t lvl M h
  constructor
  · unfold parsedSeverity parseFields
    rw [hs]
    rfl
  · unfold parsedMessage parseFields
    rw [hs]
    exact joinSep_pySplit M

/-- C8 (witness): round trip at a concrete instant for an INFO record
whose message itself contains the separator. -/
theorem C8_witness :
    ("INFO".toList = "INFO".toList ∨ "INFO".toList = "ERROR".toList)
    ∧ (parsedSeverity (AsyncLogHandler.format
          (log_async (clock0 0) "INFO".toList "a - b".toList)) = some "INFO".toList
      ∧ parsedMessage (AsyncLogHandler.format
          (log_async (clock0 0) "INFO".toList "a - b".toList)) = "a - b".toList) :=
  ⟨Or.inl rfl, C8_theorem (clock0 0) "INFO".toList "a - b".toList (Or.inl rfl)⟩

/-- C9 (confirmed): when the walk yields no files (non-existent root:
no directories at all; empty directory: directories with empty file
lists), the run completes, attempts no upload, enqueues no LogRecord,
and still enqueues the sentinel as its only event. -/
theorem C9_theorem (beh : Str → UpRes) (clock : Nat → DateTime) (bucket : Str)
    (walk : List (List Str)) (h : ∀ d ∈ walk, d = []) :
    upload_directory_to_s3 beh clock bucket walk = ([], [Event.put none]) := by
  show ((processDirs beh clock bucket walk 0).attempted,
    (processDirs beh clock bucket walk 0).events ++ [Event.put none]) = _
  rw [pd_empty beh clock bucket walk 0 h]
  rfl

/-- C9 (witness): the empty-walk theorem at a single empty directory. -/
theorem C9_witness :
    (∀ d ∈ ([[]] : List (List Str)), d = [])
    ∧ upload_directory_to_s3 behOk clock0 bucket0 [[]] = ([], [Event.put none]) :=
  ⟨by simp, C9_theorem behOk clock0 bucket0 [[]] (by simp)⟩

/-- C10 (counterexample): an interleaved execution of a run over an empty
walk in which the producer enqueues the sentinel and returns before the
worker takes any step: the run has returned (pending empty) but the
worker has not received the sentinel (it is still in the queue) and has
not terminated, refuting "after the call has returned, the worker has
received the sentinel and terminated". -/
theorem C10_counterexample :
    sysInit10.pending = (upload_directory_to_s3 behOk clock0 bucket0 []).2
    ∧ Reach sysInit10 sysEnd10
    ∧ sysEnd10.pending = []
    ∧ sysEnd10.workerDone = false
    ∧ sysEnd10.queue = [none] := by
  refine ⟨rfl, ?_, rfl, rfl, rfl⟩
  exact Reach.step (Step.prod (Event.put none) [] [] ⟨[], []⟩ [] false) (Reach.refl sysEnd10)

/-- C10 (amended): the run unconditionally enqueues the sentinel as its
final event; the worker stops at the first sentinel it dequeues (which
happens asynchronously, not necessarily before the run returns), and any
queue item after that sentinel — such as records submitted by a later
call in the same process — is never written to any sink. -/
theorem C10_theorem (beh : Str → UpRes) (clock : Nat → DateTime) (bucket : Str)
    (walk : List (List Str)) (rs : List LogRecord) (B : List (Option LogRecord)) (s : Sinks) :
    (upload_directory_to_s3 beh clock bucket walk).2.getLast? = some (Event.put none)
    ∧ AsyncLogHandler.run (rs.map some ++ none :: B) s
        = AsyncLogHandler.run (rs.map some ++ [none]) s := by
  constructor
  · rw [upload_events]
    exact List.getLast?_concat _
  · exact run_ignores rs B s
